import Mathlib

/-!
# docConv demo script (`demo.js`): embedding and verified properties

The script defines a `UserManager` class (constructor, `fetchUsers`, `getUserById`),
the pure helpers `createMultiplier` and `processData`, the promise chain `loadUserData`
and the orchestration routine `main`.

Modelling decisions.

* JavaScript values are a small dynamically typed universe `JSValue`.  Values carry no
  object identity, so strict equality is modelled against primitive operands only.
* Numbers are IEEE-754 binary64 values `JSNumber` (sign, 53-bit significand, exponent,
  infinities, `NaN`); `*` and `+` round to nearest, ties to even, and overflow to an
  infinity.
* An `async` function or a promise is a computation `JS α` over the runtime state that
  either completes normally (the promise resolves) or throws (the promise rejects).
  State changes made before a throw persist.  Execution is sequential.
* The network is a parameter: `Fetch` gives, for a URL, the settlement of `fetch(url)`,
  and a `Response` carries the settlement of `response.json()`.
* The console is a list of entries appended to by `console.log` / `console.error`.
-/

namespace DocConv

set_option maxRecDepth 100000

/-! ## Numbers -/

/-- A JavaScript number, an IEEE-754 binary64 value.  `finite negative mantissa exponent`
is the number `± mantissa * 2 ^ exponent`; the encodings of actual doubles are those with
`mantissa < 2 ^ 53`, `-1074 ≤ exponent ≤ 971` and `2 ^ 52 ≤ mantissa` unless
`exponent = -1074` (subnormals and the two zeros). -/
inductive JSNumber where
  | nan : JSNumber
  | inf (negative : Bool) : JSNumber
  | finite (negative : Bool) (mantissa : Nat) (exponent : Int) : JSNumber
  deriving DecidableEq

/-- Number of binary digits of `n`, by repeated halving (`fuel` bounds the halvings). -/
def bitLengthAux : Nat → Nat → Nat
  | 0, _ => 0
  | fuel + 1, n => if n = 0 then 0 else bitLengthAux fuel (n / 2) + 1

/-- Number of binary digits of `n`: 0 for 0, otherwise the `b` with
`2 ^ (b - 1) ≤ n < 2 ^ b`. -/
def bitLength (n : Nat) : Nat := bitLengthAux n n

/-- The integer nearest to `scaled / 2 ^ shift`, ties to the even one. -/
def roundHalfEven (scaled shift : Nat) : Nat :=
  if 2 ^ shift < 2 * (scaled % 2 ^ shift)
      ∨ (2 * (scaled % 2 ^ shift) = 2 ^ shift ∧ (scaled / 2 ^ shift) % 2 = 1) then
    scaled / 2 ^ shift + 1
  else
    scaled / 2 ^ shift

/-- Final step of rounding: a significand that rounded up to `2 ^ 53` moves to the next
exponent, a zero significand is a signed zero, an exponent above 971 overflows. -/
def JSNumber.pack (negative : Bool) (mantissa : Nat) (exponent : Int) : JSNumber :=
  if mantissa = 2 ^ 53 then
    if exponent + 1 > 971 then .inf negative else .finite negative (2 ^ 52) (exponent + 1)
  else if mantissa = 0 then .finite negative 0 (-1074)
  else if exponent > 971 then .inf negative
  else .finite negative mantissa exponent

/-- The double nearest to the exact value `± m * 2 ^ e` (round to nearest, ties to even):
the significand is cut to 53 bits, or fewer in the subnormal range. -/
def JSNumber.round (negative : Bool) (m : Nat) (e : Int) : JSNumber :=
  JSNumber.pack negative
    (roundHalfEven (m * 2 ^ (e - max (e + bitLength m - 53) (-1074)).toNat)
      (max (e + bitLength m - 53) (-1074) - e).toNat)
    (max (e + bitLength m - 53) (-1074))

/-- The number literal `n`. -/
def JSNumber.ofNat (n : Nat) : JSNumber := JSNumber.round false n 0

instance (n : Nat) : OfNat JSNumber n := ⟨JSNumber.ofNat n⟩

/-- The integer `± m` as a signed integer. -/
def JSNumber.signed (negative : Bool) (m : Nat) : Int :=
  if negative then -(m : Int) else (m : Int)

/-- Operator `a * b` on numbers. -/
def JSNumber.mul : JSNumber → JSNumber → JSNumber
  | .nan, _ => .nan
  | _, .nan => .nan
  | .inf a, .inf b => .inf (xor a b)
  | .inf a, .finite b m _ => if m = 0 then .nan else .inf (xor a b)
  | .finite a m _, .inf b => if m = 0 then .nan else .inf (xor a b)
  | .finite a m e, .finite b n f => JSNumber.round (xor a b) (m * n) (e + f)

/-- Operator `a + b` on numbers.  An exact sum of zero is `+0` unless both operands are
negative (two negative zeros). -/
def JSNumber.add : JSNumber → JSNumber → JSNumber
  | .nan, _ => .nan
  | _, .nan => .nan
  | .inf a, .inf b => if a = b then .inf a else .nan
  | .inf a, .finite _ _ _ => .inf a
  | .finite _ _ _, .inf b => .inf b
  | .finite a m e, .finite b n f =>
    if JSNumber.signed a (m * 2 ^ (e - min e f).toNat)
        + JSNumber.signed b (n * 2 ^ (f - min e f).toNat) = 0 then
      .finite (a && b) 0 (-1074)
    else
      JSNumber.round
        (decide (JSNumber.signed a (m * 2 ^ (e - min e f).toNat)
          + JSNumber.signed b (n * 2 ^ (f - min e f).toNat) < 0))
        (JSNumber.signed a (m * 2 ^ (e - min e f).toNat)
          + JSNumber.signed b (n * 2 ^ (f - min e f).toNat)).natAbs
        (min e f)

instance : Mul JSNumber := ⟨JSNumber.mul⟩

instance : Add JSNumber := ⟨JSNumber.add⟩

/-- Operator `a < b` on numbers; every comparison with `NaN` is false. -/
def JSNumber.lt : JSNumber → JSNumber → Bool
  | .nan, _ => false
  | _, .nan => false
  | .inf a, .inf b => a && !b
  | .inf a, .finite _ _ _ => a
  | .finite _ _ _, .inf b => !b
  | .finite a m e, .finite b n f =>
    decide (JSNumber.signed a (m * 2 ^ (e - min e f).toNat)
      < JSNumber.signed b (n * 2 ^ (f - min e f).toNat))

/-- Operator `a > b` on numbers. -/
def JSNumber.gt (a b : JSNumber) : Bool := JSNumber.lt b a

/-- Operator `a === b` on numbers: `NaN` equals nothing, the two zeros are equal. -/
def JSNumber.equals : JSNumber → JSNumber → Bool
  | .inf a, .inf b => a == b
  | .finite a m e, .finite b n f =>
    decide (JSNumber.signed a (m * 2 ^ (e - min e f).toNat)
      = JSNumber.signed b (n * 2 ^ (f - min e f).toNat))
  | _, _ => false

/-- Whether the encoding is that of an actual double. -/
def JSNumber.isDouble : JSNumber → Bool
  | .finite _ m e =>
    decide (m < 2 ^ 53) && decide (-1074 ≤ e) && decide (e ≤ 971)
      && (decide (2 ^ 52 ≤ m) || decide (e = -1074))
  | _ => true

/-- The exact value of a finite number; `none` for the infinities and `NaN`. -/
def JSNumber.toRat : JSNumber → Option ℚ
  | .finite negative m e => some ((if negative then -1 else 1) * (m : ℚ) * 2 ^ e)
  | _ => none

/-- Length of a string in UTF-16 code units, the `length` of a JavaScript string. -/
def utf16Length (s : String) : Nat :=
  (s.toList.map fun c => if c.toNat < 65536 then 1 else 2).sum

/-! ## Values -/

/-- JavaScript values.  Objects are association lists of own data properties. -/
inductive JSValue where
  | undefined : JSValue
  | null : JSValue
  | bool (b : Bool) : JSValue
  | number (n : JSNumber) : JSValue
  | string (s : String) : JSValue
  | array (items : List JSValue) : JSValue
  | object (fields : List (String × JSValue)) : JSValue

/-- The `TypeError` object thrown by the language itself. -/
def typeError (message : String) : JSValue :=
  .object [("name", .string "TypeError"), ("message", .string message)]

/-- Property read `v.key`.  Reading a property of `undefined` or `null` throws a
`TypeError`; an object yields its own property or `undefined`; arrays and strings have
`length`; every other read yields `undefined` (prototype members and array indices are
not represented). -/
def JSValue.getProp (v : JSValue) (key : String) : Except JSValue JSValue :=
  match v with
  | .undefined => .error (typeError ("Cannot read properties of undefined (reading " ++ key ++ ")"))
  | .null => .error (typeError ("Cannot read properties of null (reading " ++ key ++ ")"))
  | .object fields => .ok ((fields.lookup key).getD .undefined)
  | .array items =>
    if key = "length" then .ok (.number (JSNumber.ofNat items.length)) else .ok .undefined
  | .string s =>
    if key = "length" then .ok (.number (JSNumber.ofNat (utf16Length s))) else .ok .undefined
  | .bool _ => .ok .undefined
  | .number _ => .ok .undefined

/-- Primitive values: the values that strict equality compares by content. -/
inductive JSPrimitive where
  | undefined : JSPrimitive
  | null : JSPrimitive
  | bool (b : Bool) : JSPrimitive
  | number (n : JSNumber) : JSPrimitive
  | string (s : String) : JSPrimitive

/-- Strict equality `a === b` with a primitive right operand: same type and same content
(numbers by `JSNumber.equals`); an array or an object is never equal to a primitive.
Equality of two arrays or objects is by reference, which values do not carry, so it is not
part of the model. -/
def strictEquals : JSValue → JSPrimitive → Bool
  | .undefined, .undefined => true
  | .null, .null => true
  | .bool a, .bool b => a == b
  | .number a, .number b => JSNumber.equals a b
  | .string a, .string b => a == b
  | _, _ => false

/-- Recogniser for `undefined` and `null`, the two values without properties. -/
def JSValue.isNullish : JSValue → Bool
  | .undefined => true
  | .null => true
  | _ => false

/-- Recogniser for objects (records). -/
def JSValue.isObject : JSValue → Bool
  | .object _ => true
  | _ => false

/-- Recogniser for the empty array `[]`. -/
def JSValue.isEmptyArray : JSValue → Bool
  | .array [] => true
  | _ => false

/-! ## Runtime state, console and the computation type -/

/-- The two console channels used by the script. -/
inductive LogLevel where
  | log : LogLevel
  | error : LogLevel
  deriving DecidableEq

/-- One console line: `console.log(label, payload)` or `console.error(label, payload)`. -/
structure LogEntry where
  level : LogLevel
  label : String
  payload : JSValue

/-- Instance state of `class UserManager`: the fields `apiUrl` and `users`. -/
structure UserManager where
  apiUrl : String
  users : JSValue

/-- `constructor(apiUrl)`: stores the endpoint and starts with `users = []`. -/
def UserManager.new (apiUrl : String) : UserManager :=
  { apiUrl := apiUrl, users := .array [] }

/-- Runtime state: the manager instance operated on and the console written so far. -/
structure Runtime where
  manager : UserManager
  console : List LogEntry

/-- Computations: from a runtime state, complete normally with a value or throw a value,
and leave a runtime state behind. -/
def JS (α : Type) : Type := Runtime → Except JSValue α × Runtime

/-- Normal completion with a value. -/
def JS.pure {α : Type} (a : α) : JS α := fun s => (.ok a, s)

/-- Sequencing: a throw in the first computation skips the continuation. -/
def JS.bind {α β : Type} (m : JS α) (f : α → JS β) : JS β := fun s =>
  match m s with
  | (.ok a, s1) => f a s1
  | (.error e, s1) => (.error e, s1)

instance : Monad JS where
  pure := JS.pure
  bind := JS.bind

/-- Statement `throw e`. -/
def JS.throw {α : Type} (e : JSValue) : JS α := fun s => (.error e, s)

/-- Statement `try body catch (error) handler`. -/
def JS.tryCatch {α : Type} (body : JS α) (handler : JSValue → JS α) : JS α := fun s =>
  match body s with
  | (.ok a, s1) => (.ok a, s1)
  | (.error e, s1) => handler e s1

/-- Expression `await p` for a promise that settles as `p`: the resolved value, or a
throw of the rejection reason. -/
def JS.await {α : Type} (p : Except JSValue α) : JS α := fun s => (p, s)

/-- Evaluation of an expression that yields a value or throws (a property read). -/
def JS.eval {α : Type} (r : Except JSValue α) : JS α := fun s => (r, s)

/-- Promise method `p.then(onFulfilled)`: runs the callback on the resolved value; a
rejection passes through. -/
def JS.thenDo {α β : Type} (p : JS α) (onFulfilled : α → JS β) : JS β := JS.bind p onFulfilled

/-- Promise method `p.catch(onRejected)`: runs the callback on the rejection reason; a
resolved value passes through. -/
def JS.catchDo {α : Type} (p : JS α) (onRejected : JSValue → JS α) : JS α := JS.tryCatch p onRejected

/-- Call `console.log(label, payload)`. -/
def JS.consoleLog (label : String) (payload : JSValue) : JS Unit := fun s =>
  (.ok (), { s with console := s.console ++ [{ level := .log, label := label, payload := payload }] })

/-- Call `console.error(label, payload)`. -/
def JS.consoleError (label : String) (payload : JSValue) : JS Unit := fun s =>
  (.ok (), { s with console := s.console ++ [{ level := .error, label := label, payload := payload }] })

/-- Read of `this.apiUrl`. -/
def JS.getApiUrl : JS String := fun s => (.ok s.manager.apiUrl, s)

/-- Read of `this.users`. -/
def JS.getUsers : JS JSValue := fun s => (.ok s.manager.users, s)

/-- Assignment `this.users = v`. -/
def JS.setUsers (v : JSValue) : JS Unit := fun s =>
  (.ok (), { s with manager := { s.manager with users := v } })

/-- Statement `const manager = new UserManager(apiUrl)`. -/
def JS.newManager (apiUrl : String) : JS Unit := fun s =>
  (.ok (), { s with manager := UserManager.new apiUrl })

/-! ## The network -/

/-- A settled `Response`: `json` is the settlement of `response.json()`. -/
structure Response where
  json : Except JSValue JSValue

/-- The network at the time of one request: the settlement of `fetch(url)`. -/
abbrev Fetch : Type := String → Except JSValue Response

/-! ## `class UserManager` -/

/-- Method `async fetchUsers()`. -/
def UserManager.fetchUsers (fetch : Fetch) : JS JSValue :=
  JS.tryCatch
    (do
      let apiUrl ← JS.getApiUrl
      let response ← JS.await (fetch apiUrl)
      let data ← JS.await response.json
      let users ← JS.eval (data.getProp "users")
      JS.setUsers users
      JS.getUsers)
    (fun error => do
      JS.consoleError "Error fetching users:" error
      pure (.array []))

/-- Array method `items.find(callback)`: the first element on which the callback answers
true, `undefined` when there is none; a throw of the callback propagates. -/
def arrayFind (callback : JSValue → JS Bool) : List JSValue → JS JSValue
  | [] => JS.pure .undefined
  | item :: rest => JS.bind (callback item) fun found =>
      if found then JS.pure item else arrayFind callback rest

/-- Method `getUserById(id)`: `this.users.find(user => user.id === id)`, for a primitive
identifier.  When `this.users` is not an array there is no `find` to call and a
`TypeError` is thrown. -/
def UserManager.getUserById (id : JSPrimitive) : JS JSValue := do
  let users ← JS.getUsers
  match users with
  | .array items =>
      arrayFind (fun user => do
        let userId ← JS.eval (user.getProp "id")
        pure (strictEquals userId id)) items
  | _ => JS.throw (typeError "this.users.find is not a function")

/-! ## Higher-order function and array pipeline -/

/-- Function `createMultiplier(factor)`: returns `number => number * factor`. -/
def createMultiplier (factor : JSNumber) : JSNumber → JSNumber :=
  fun number => number * factor

/-- The object returned by `processData`. -/
structure ProcessedData where
  doubled : List JSNumber
  filtered : List JSNumber
  sum : JSNumber
  deriving DecidableEq

/-- Function `processData(numbers)`. -/
def processData (numbers : List JSNumber) : ProcessedData :=
  let doubled := numbers.map fun n => n * 2
  let filtered := doubled.filter fun n => n.gt 10
  let reduced := filtered.foldl (fun acc n => acc + n) 0
  { doubled := doubled, filtered := filtered, sum := reduced }

/-- The `processData` result as a JavaScript object, as handed to `console.log`. -/
def ProcessedData.toJS (r : ProcessedData) : JSValue :=
  .object [("doubled", .array (r.doubled.map .number)),
           ("filtered", .array (r.filtered.map .number)),
           ("sum", .number r.sum)]

/-! ## Promise chain and orchestration -/

/-- Function `loadUserData()`. -/
def loadUserData (fetch : Fetch) : JS JSValue :=
  JS.catchDo
    (JS.thenDo
      (JS.thenDo (JS.await (fetch "https://api.example.com/users"))
        fun response => JS.await response.json)
      fun data => do
        JS.consoleLog "Users loaded:" data
        pure data)
    fun error => do
      JS.consoleError "Failed to load users:" error
      JS.throw error

/-- The `try` block of `main`. -/
def mainTry (fetch : Fetch) : JS Unit := do
  let users ← UserManager.fetchUsers fetch
  let count ← JS.eval (users.getProp "length")
  JS.consoleLog "Total users:" count
  let numbers : List JSNumber := [1, 2, 3, 4, 5]
  let result := processData numbers
  JS.consoleLog "Processed data:" result.toJS
  let triple := createMultiplier 3
  JS.consoleLog "Triple of 5:" (.number (triple 5))

/-- Function `main()`. -/
def main (fetch : Fetch) : JS Unit := do
  JS.newManager "https://api.example.com/users"
  JS.tryCatch (mainTry fetch) fun error =>
    JS.consoleError "Error in main:" error

/-! ## Vocabulary of the specification -/

/-- Settlement of the request followed by the decoding step: `fetch(url)` and then
`response.json()`. -/
def decodedBody (fetch : Fetch) (url : String) : Except JSValue JSValue :=
  match fetch url with
  | .error e => .error e
  | .ok response => response.json

/-- A failed fetch in the sense of the specification: `fetch` rejects, `response.json()`
rejects, or the decoded body is `null` / `undefined` and so has no readable field. -/
def fetchFails (fetch : Fetch) (url : String) : Bool :=
  match fetch url with
  | .error _ => true
  | .ok response =>
    match response.json with
    | .error _ => true
    | .ok data => data.isNullish

/-- What a successful call delivers: the `users` field of the decoded body; `none` for a
failed call. -/
def delivered (fetch : Fetch) (url : String) : Option JSValue :=
  match decodedBody fetch url with
  | .error _ => none
  | .ok data =>
    match data.getProp "users" with
    | .error _ => none
    | .ok users => some users

/-- The user list delivered by the most recent call that succeeded, and the empty
sequence when no call has succeeded yet. -/
def mostRecentDelivery (url : String) (calls : List Fetch) : JSValue :=
  ((calls.filterMap fun fetch => delivered fetch url).getLast?).getD (.array [])

/-- A sequence of `fetchUsers` calls on one manager, one network outcome per call. -/
def fetchUsersRepeatedly : List Fetch → Runtime → Runtime
  | [], s => s
  | fetch :: rest, s => fetchUsersRepeatedly rest (UserManager.fetchUsers fetch s).2

/-- Whether a successful call delivers `undefined` or `null` as its user list (the body
has no `users` field, or the field is `null`). -/
def deliversNullish (fetch : Fetch) (url : String) : Bool :=
  match delivered fetch url with
  | some v => v.isNullish
  | none => false

/-- Whether the record `user` carries the identifier `id`: `user.id === id`. -/
def hasId (id : JSPrimitive) (user : JSValue) : Bool :=
  match user.getProp "id" with
  | .ok userId => strictEquals userId id
  | .error _ => false

/-- The endpoint hard-coded in `loadUserData` and `main`. -/
def exampleUrl : String := "https://api.example.com/users"

/-- The number `x` is an actual double whose exact value is `q`. -/
def Represents (x : JSNumber) (q : ℚ) : Prop :=
  x.isDouble = true ∧ x.toRat = some q

/-- The rational `q` is exactly representable as a double. -/
def Representable (q : ℚ) : Prop :=
  ∃ x : JSNumber, Represents x q

/-! ## Concrete inputs -/

/-- The largest odd integer below `2 ^ 53`, `9007199254740991`. -/
def maxSafeInteger : JSNumber := JSNumber.ofNat 9007199254740991

/-- The double `2 ^ 1023`, about `8.99e307`. -/
def hugeNumber : JSNumber := .finite false (2 ^ 52) 971

/-- A network on which `fetch` rejects. -/
def offline : Fetch := fun _ => .error (.string "offline")

/-- A network whose response body is not JSON: `response.json()` rejects. -/
def garbled : Fetch := fun _ => .ok { json := .error (.string "Unexpected token") }

/-- A network whose response decodes to `data`. -/
def respondingWith (data : JSValue) : Fetch := fun _ => .ok { json := .ok data }

/-- A user record with identifier 1. -/
def alice : JSValue :=
  .object [("id", .number 1), ("name", .string "Alice"), ("email", .string "alice@example.com"),
           ("age", .number 30)]

/-- A user record with identifier 2. -/
def bob : JSValue :=
  .object [("id", .number 2), ("name", .string "Bob"), ("email", .string "bob@example.com"),
           ("age", .number 41)]

/-- A second record with identifier 2, stored after `bob`. -/
def bobTwin : JSValue :=
  .object [("id", .number 2), ("name", .string "Robert"), ("email", .string "rob@example.com"),
           ("age", .number 17)]

/-- A manager that already holds one user from an earlier successful fetch. -/
def loadedRuntime : Runtime :=
  { manager := { apiUrl := exampleUrl, users := .array [alice] }, console := [] }

/-- A manager holding three users, two of which share an identifier. -/
def crowdedRuntime : Runtime :=
  { manager := { apiUrl := exampleUrl, users := .array [alice, bob, bobTwin] }, console := [] }

/-- A freshly constructed manager with an empty console. -/
def freshRuntime : Runtime :=
  { manager := UserManager.new exampleUrl, console := [] }



/-! ## Lemmas on `fetchUsers` -/

theorem fetchUsers_result (fetch : Fetch) (s : Runtime) :
    (UserManager.fetchUsers fetch s).1
      = .ok ((delivered fetch s.manager.apiUrl).getD (.array [])) := by
  simp only [UserManager.fetchUsers, JS.tryCatch, bind, JS.bind, JS.getApiUrl, JS.await,
    JS.eval, JS.setUsers, JS.getUsers, JS.consoleError, pure, JS.pure, delivered, decodedBody]
  cases h1 : fetch s.manager.apiUrl with
  | error e => rfl
  | ok response =>
    cases h2 : response.json with
    | error e => simp [h2]
    | ok data =>
      cases h3 : data.getProp "users" with
      | error e => simp [h2, h3]
      | ok users => simp [h2, h3]

theorem fetchUsers_manager (fetch : Fetch) (s : Runtime) :
    (UserManager.fetchUsers fetch s).2.manager =
      match delivered fetch s.manager.apiUrl with
      | some v => { s.manager with users := v }
      | none => s.manager := by
  simp only [UserManager.fetchUsers, JS.tryCatch, bind, JS.bind, JS.getApiUrl, JS.await,
    JS.eval, JS.setUsers, JS.getUsers, JS.consoleError, pure, JS.pure, delivered, decodedBody]
  cases h1 : fetch s.manager.apiUrl with
  | error e => rfl
  | ok response =>
    cases h2 : response.json with
    | error e => simp [h2]
    | ok data =>
      cases h3 : data.getProp "users" with
      | error e => simp [h2, h3]
      | ok users => simp [h2, h3]

theorem getProp_eq_error_iff (v : JSValue) (key : String) :
    (∃ e, v.getProp key = .error e) ↔ v.isNullish = true := by
  cases v <;> simp [JSValue.getProp, JSValue.isNullish] <;> split <;> simp

theorem delivered_eq_none_iff (fetch : Fetch) (url : String) :
    delivered fetch url = none ↔ fetchFails fetch url = true := by
  unfold delivered decodedBody fetchFails
  cases h1 : fetch url with
  | error e => simp
  | ok response =>
    cases h2 : response.json with
    | error e => simp [h2]
    | ok data =>
      have h := getProp_eq_error_iff data "users"
      cases h3 : data.getProp "users" with
      | error e =>
        have hn : data.isNullish = true := h.mp ⟨e, h3⟩
        simp [h2, h3, hn]
      | ok users =>
        have hn : data.isNullish = false := by
          cases hb : data.isNullish with
          | false => rfl
          | true =>
            obtain ⟨e, he⟩ := h.mpr hb
            rw [h3] at he
            cases he
        simp [h2, h3, hn]

theorem fetchUsersRepeatedly_apiUrl (calls : List Fetch) (s : Runtime) :
    (fetchUsersRepeatedly calls s).manager.apiUrl = s.manager.apiUrl := by
  induction calls generalizing s with
  | nil => rfl
  | cons fetch rest ih =>
    rw [fetchUsersRepeatedly, ih, fetchUsers_manager]
    cases delivered fetch s.manager.apiUrl <;> rfl

theorem fetchUsersRepeatedly_users (calls : List Fetch) (s : Runtime) :
    (fetchUsersRepeatedly calls s).manager.users
      = ((calls.filterMap fun fetch => delivered fetch s.manager.apiUrl).getLast?).getD
          s.manager.users := by
  induction calls generalizing s with
  | nil => rfl
  | cons fetch rest ih =>
    have hm := fetchUsers_manager fetch s
    rw [fetchUsersRepeatedly, ih]
    cases hd : delivered fetch s.manager.apiUrl with
    | none =>
      rw [hd] at hm
      simp [List.filterMap_cons, hd, hm]
    | some v =>
      rw [hd] at hm
      simp [List.filterMap_cons, hd, hm, List.getLast?_cons]

/-! ## Claims on `fetchUsers` -/

/-- C1, as stated, fails: with one user stored and a rejected request, the call counts as
a failed fetch and the stored sequence afterwards is still that one user, not the empty
sequence. -/
theorem fetchUsers_failure_keeps_stored_users :
    fetchFails offline loadedRuntime.manager.apiUrl = true
    ∧ loadedRuntime.manager.users = .array [alice]
    ∧ (UserManager.fetchUsers offline loadedRuntime).2.manager.users = .array [alice]
    ∧ (UserManager.fetchUsers offline loadedRuntime).2.manager.users ≠ .array [] :=
  ⟨rfl, rfl, rfl, fun h => by cases h⟩

/-- C1, amended: when `fetchUsers` is called and the request or the decoding fails, the
stored user sequence after the call is the value it held before the call (the catch branch
never assigns `this.users`); the empty sequence is only the value returned. -/
theorem fetchUsers_failure_preserves_stored_users (fetch : Fetch) (s : Runtime)
    (h : fetchFails fetch s.manager.apiUrl = true) :
    (UserManager.fetchUsers fetch s).2.manager.users = s.manager.users
    ∧ (UserManager.fetchUsers fetch s).2.manager.apiUrl = s.manager.apiUrl
    ∧ (UserManager.fetchUsers fetch s).1 = .ok (.array []) := by
  have hd := (delivered_eq_none_iff fetch s.manager.apiUrl).mpr h
  have hm := fetchUsers_manager fetch s
  have hr := fetchUsers_result fetch s
  rw [hd] at hm hr
  exact ⟨by rw [hm], by rw [hm], hr⟩

/-- Witness for C1 amended: a garbled response on a manager holding one user. -/
theorem fetchUsers_failure_preserves_stored_users_witness :
    fetchFails garbled loadedRuntime.manager.apiUrl = true
    ∧ ((UserManager.fetchUsers garbled loadedRuntime).2.manager.users
          = loadedRuntime.manager.users
        ∧ (UserManager.fetchUsers garbled loadedRuntime).2.manager.apiUrl
          = loadedRuntime.manager.apiUrl
        ∧ (UserManager.fetchUsers garbled loadedRuntime).1 = .ok (.array [])) :=
  ⟨rfl, fetchUsers_failure_preserves_stored_users garbled loadedRuntime rfl⟩

/-- C2: whenever the network call or the decoding step fails (`fetch` rejects,
`response.json()` rejects, or the decoded body is `null` / `undefined`), `fetchUsers` does
not raise to its caller and its result is the empty sequence. -/
theorem fetchUsers_swallows_failure (fetch : Fetch) (s : Runtime)
    (h : fetchFails fetch s.manager.apiUrl = true) :
    (UserManager.fetchUsers fetch s).1 = .ok (.array []) := by
  have hr := fetchUsers_result fetch s
  rw [(delivered_eq_none_iff fetch s.manager.apiUrl).mpr h] at hr
  exact hr

/-- Witness for C2: the three kinds of failure on a fresh manager. -/
theorem fetchUsers_swallows_failure_witness :
    (fetchFails offline freshRuntime.manager.apiUrl = true
      ∧ (UserManager.fetchUsers offline freshRuntime).1 = .ok (.array []))
    ∧ (fetchFails garbled freshRuntime.manager.apiUrl = true
      ∧ (UserManager.fetchUsers garbled freshRuntime).1 = .ok (.array []))
    ∧ (fetchFails (respondingWith .null) freshRuntime.manager.apiUrl = true
      ∧ (UserManager.fetchUsers (respondingWith .null) freshRuntime).1 = .ok (.array [])) :=
  ⟨⟨rfl, fetchUsers_swallows_failure offline freshRuntime rfl⟩,
   ⟨rfl, fetchUsers_swallows_failure garbled freshRuntime rfl⟩,
   ⟨rfl, fetchUsers_swallows_failure (respondingWith .null) freshRuntime rfl⟩⟩

/-- C8: starting from a freshly constructed manager, after any finite sequence of
`fetchUsers` calls with arbitrary network outcomes the stored user sequence is the list
delivered by the most recent call that succeeded, and the empty sequence when none has
succeeded; a single call that succeeds returns exactly the sequence it stores, and a call
that fails leaves the stored sequence as it was. -/
theorem stored_users_reflect_most_recent_success (url : String) (console : List LogEntry)
    (calls : List Fetch) :
    (fetchUsersRepeatedly calls { manager := UserManager.new url, console := console }).manager.users
      = mostRecentDelivery url calls
    ∧ ∀ (fetch : Fetch) (s : Runtime),
        match delivered fetch s.manager.apiUrl with
        | some users =>
            (UserManager.fetchUsers fetch s).1 = .ok users
            ∧ (UserManager.fetchUsers fetch s).2.manager.users = users
        | none => (UserManager.fetchUsers fetch s).2.manager.users = s.manager.users := by
  refine ⟨?_, ?_⟩
  · rw [fetchUsersRepeatedly_users]
    rfl
  · intro fetch s
    have hm := fetchUsers_manager fetch s
    have hr := fetchUsers_result fetch s
    cases hd : delivered fetch s.manager.apiUrl with
    | none =>
      rw [hd] at hm
      simp only [hm]
    | some users =>
      rw [hd] at hm hr
      exact ⟨hr, by rw [hm]⟩

/-- Instance of C8: a success, a failure, a second success and two more failures on a
fresh manager leave the list of the second success stored. -/
theorem stored_users_reflect_most_recent_success_witness :
    (fetchUsersRepeatedly
        [respondingWith (.object [("users", .array [alice])]), offline,
         respondingWith (.object [("users", .array [bob, bobTwin])]), garbled,
         respondingWith .null]
        freshRuntime).manager.users
      = mostRecentDelivery exampleUrl
          [respondingWith (.object [("users", .array [alice])]), offline,
           respondingWith (.object [("users", .array [bob, bobTwin])]), garbled,
           respondingWith .null]
    ∧ mostRecentDelivery exampleUrl
          [respondingWith (.object [("users", .array [alice])]), offline,
           respondingWith (.object [("users", .array [bob, bobTwin])]), garbled,
           respondingWith .null]
      = .array [bob, bobTwin]
    ∧ mostRecentDelivery exampleUrl [offline, garbled] = .array [] :=
  ⟨(stored_users_reflect_most_recent_success exampleUrl []
      [respondingWith (.object [("users", .array [alice])]), offline,
       respondingWith (.object [("users", .array [bob, bobTwin])]), garbled,
       respondingWith .null]).1, rfl, rfl⟩



/-! ## Lemmas on double arithmetic -/

theorem bitLengthAux_bounds (fuel n : Nat) (h : n ≤ fuel) :
    n < 2 ^ bitLengthAux fuel n ∧ (n ≠ 0 → 2 ^ bitLengthAux fuel n ≤ 2 * n) := by
  induction fuel generalizing n with
  | zero =>
    have : n = 0 := by omega
    subst this
    simp [bitLengthAux]
  | succ fuel ih =>
    by_cases hn : n = 0
    · subst hn
      simp [bitLengthAux]
    · have hhalf : n / 2 ≤ fuel := by omega
      obtain ⟨h1, h2⟩ := ih (n / 2) hhalf
      simp only [bitLengthAux, hn, if_false, pow_succ]
      refine ⟨by omega, fun _ => ?_⟩
      by_cases hz : n / 2 = 0
      · have hk : bitLengthAux fuel (n / 2) = 0 := by
          rw [hz]
          cases fuel <;> simp [bitLengthAux]
        rw [hk]
        omega
      · have := h2 hz
        omega

theorem bitLength_lt (n : Nat) : n < 2 ^ bitLength n :=
  (bitLengthAux_bounds n n le_rfl).1

theorem bitLength_le (n : Nat) (h : n ≠ 0) : 2 ^ bitLength n ≤ 2 * n :=
  (bitLengthAux_bounds n n le_rfl).2 h

theorem bitLength_unique (n b : Nat) (h1 : n < 2 ^ b) (h2 : 2 ^ b ≤ 2 * n) :
    bitLength n = b := by
  have hn : n ≠ 0 := by
    rintro rfl
    have := Nat.two_pow_pos b
    omega
  have h3 := bitLength_lt n
  have h4 := bitLength_le n hn
  have hlt1 : 2 ^ b < 2 ^ (bitLength n + 1) := by
    rw [pow_succ]; omega
  have hlt2 : 2 ^ bitLength n < 2 ^ (b + 1) := by
    rw [pow_succ]; omega
  have := (Nat.pow_lt_pow_iff_right (by decide : 1 < 2)).mp hlt1
  have := (Nat.pow_lt_pow_iff_right (by decide : 1 < 2)).mp hlt2
  omega

theorem bitLength_mul_pow (n k : Nat) (h : n ≠ 0) :
    bitLength (n * 2 ^ k) = bitLength n + k := by
  apply bitLength_unique
  · rw [pow_add]
    exact Nat.mul_lt_mul_of_pos_right (bitLength_lt n) (Nat.two_pow_pos k)
  · rw [pow_add, ← Nat.mul_assoc]
    exact Nat.mul_le_mul_right _ (bitLength_le n h)

theorem roundHalfEven_exact (M k : Nat) : roundHalfEven (M * 2 ^ k) k = M := by
  have hpos : 0 < 2 ^ k := Nat.two_pow_pos k
  have hmod : M * 2 ^ k % 2 ^ k = 0 := Nat.mul_mod_left M (2 ^ k)
  have hdiv : M * 2 ^ k / 2 ^ k = M := Nat.mul_div_cancel M hpos
  unfold roundHalfEven
  rw [hmod, hdiv, if_neg]
  omega



theorem isDouble_finite_iff (negative : Bool) (M : Nat) (E : Int) :
    (JSNumber.finite negative M E).isDouble = true
      ↔ M < 2 ^ 53 ∧ -1074 ≤ E ∧ E ≤ 971 ∧ (2 ^ 52 ≤ M ∨ E = -1074) := by
  simp only [JSNumber.isDouble, Bool.and_eq_true, Bool.or_eq_true, decide_eq_true_eq]
  tauto

theorem bitLength_le_53 (M : Nat) (h : M < 2 ^ 53) : bitLength M ≤ 53 := by
  by_cases hM : M = 0
  · subst hM
    simp [bitLength, bitLengthAux]
  · have h1 := bitLength_le M hM
    have h2 : 2 ^ bitLength M < 2 ^ 54 := by
      have : (2 : Nat) ^ 54 = 2 * 2 ^ 53 := by norm_num
      omega
    have := (Nat.pow_lt_pow_iff_right (by decide : 1 < 2)).mp h2
    omega

theorem bitLength_eq_53 (M : Nat) (h : M < 2 ^ 53) (h52 : 2 ^ 52 ≤ M) : bitLength M = 53 := by
  have h1 := bitLength_le_53 M h
  have h2 : 2 ^ 52 < 2 ^ bitLength M := lt_of_le_of_lt h52 (bitLength_lt M)
  have := (Nat.pow_lt_pow_iff_right (by decide : 1 < 2)).mp h2
  omega

theorem round_exponent_eq (M : Nat) (E : Int) (h53 : M < 2 ^ 53) (hE : -1074 ≤ E)
    (hn : 2 ^ 52 ≤ M ∨ E = -1074) :
    max (E + (bitLength M : Int) - 53) (-1074) = E := by
  have h1 := bitLength_le_53 M h53
  rcases hn with h52 | hsub
  · have := bitLength_eq_53 M h53 h52
    omega
  · omega

theorem pack_eq_finite (negative : Bool) (M : Nat) (E : Int) (hM : M ≠ 0) (h53 : M < 2 ^ 53)
    (hE : E ≤ 971) : JSNumber.pack negative M E = .finite negative M E := by
  have h1 : M ≠ 2 ^ 53 := by omega
  have h2 : ¬ E > 971 := by omega
  unfold JSNumber.pack
  rw [if_neg h1, if_neg hM, if_neg h2]

theorem round_exact_up (negative : Bool) (m M k : Nat) (E : Int) (hM : M ≠ 0)
    (hd : (JSNumber.finite negative M E).isDouble = true) (hval : m * 2 ^ k = M) :
    JSNumber.round negative m (E + k) = .finite negative M E := by
  obtain ⟨h53, hE, hE2, hn⟩ := (isDouble_finite_iff negative M E).mp hd
  have hm : m ≠ 0 := by
    rintro rfl
    simp at hval
    exact hM hval.symm
  have hb : bitLength M = bitLength m + k := by
    rw [← hval, bitLength_mul_pow m k hm]
  have hq : max (E + k + (bitLength m : Int) - 53) (-1074) = E := by
    have := round_exponent_eq M E h53 hE hn
    rw [hb] at this
    push_cast at this
    have heq : E + (k : Int) + (bitLength m : Int) - 53
        = E + ((bitLength m : Int) + (k : Int)) - 53 := by omega
    rw [heq]
    exact this
  unfold JSNumber.round
  rw [hq]
  have h1 : (E + (k : Int) - E).toNat = k := by simp
  have h2 : (E - (E + (k : Int))).toNat = 0 := by simp
  rw [h1, h2, hval]
  have := roundHalfEven_exact M 0
  simp only [pow_zero, mul_one] at this
  rw [this]
  exact pack_eq_finite negative M E hM h53 hE2

theorem round_exact_down (negative : Bool) (M k : Nat) (e : Int) (hM : M ≠ 0)
    (hd : (JSNumber.finite negative M (e + k)).isDouble = true) :
    JSNumber.round negative (M * 2 ^ k) e = .finite negative M (e + k) := by
  obtain ⟨h53, hE, hE2, hn⟩ := (isDouble_finite_iff negative M (e + k)).mp hd
  have hb : bitLength (M * 2 ^ k) = bitLength M + k := bitLength_mul_pow M k hM
  have hq : max (e + (bitLength (M * 2 ^ k) : Int) - 53) (-1074) = e + k := by
    have := round_exponent_eq M (e + k) h53 hE hn
    rw [hb]
    push_cast
    have heq : e + ((bitLength M : Int) + (k : Int)) - 53
        = e + (k : Int) + (bitLength M : Int) - 53 := by omega
    rw [heq]
    exact this
  unfold JSNumber.round
  rw [hq]
  have h1 : (e - (e + (k : Int))).toNat = 0 := by simp
  have h2 : (e + (k : Int) - e).toNat = k := by simp
  rw [h1, h2, pow_zero, mul_one, roundHalfEven_exact]
  exact pack_eq_finite negative M (e + k) hM h53 hE2

theorem round_exact (negative : Bool) (m M : Nat) (e E : Int) (hM : M ≠ 0)
    (hd : (JSNumber.finite negative M E).isDouble = true)
    (hval : (m : ℚ) * 2 ^ e = (M : ℚ) * 2 ^ E) :
    JSNumber.round negative m e = .finite negative M E := by
  have h2 : (2 : ℚ) ≠ 0 := by norm_num
  rcases le_or_lt E e with hle | hlt
  · obtain ⟨k, hk⟩ := Int.eq_ofNat_of_zero_le (sub_nonneg.mpr hle)
    have he : e = E + k := by omega
    subst he
    apply round_exact_up negative m M k E hM hd
    rw [zpow_add₀ h2, zpow_natCast] at hval
    have hpos : (2 : ℚ) ^ E ≠ 0 := zpow_ne_zero E h2
    have h3 : ((m : ℚ) * 2 ^ k) * 2 ^ E = (M : ℚ) * 2 ^ E := by
      rw [← hval, mul_assoc, mul_comm ((2 : ℚ) ^ k)]
    have h4 : (m : ℚ) * 2 ^ k = M := mul_right_cancel₀ hpos h3
    exact_mod_cast h4
  · obtain ⟨k, hk⟩ := Int.eq_ofNat_of_zero_le (sub_nonneg.mpr hlt.le)
    have hE : E = e + k := by omega
    subst hE
    rw [zpow_add₀ h2, zpow_natCast] at hval
    have hpos : (2 : ℚ) ^ e ≠ 0 := zpow_ne_zero e h2
    have h3 : (m : ℚ) * 2 ^ e = ((M : ℚ) * 2 ^ k) * 2 ^ e := by
      rw [hval, mul_assoc, mul_comm ((2 : ℚ) ^ k)]
    have h4 : (m : ℚ) = (M : ℚ) * 2 ^ k := mul_right_cancel₀ hpos h3
    have hm : m = M * 2 ^ k := by exact_mod_cast h4
    subst hm
    exact round_exact_down negative M k e hM hd



theorem round_zero (negative : Bool) (e : Int) :
    JSNumber.round negative 0 e = .finite negative 0 (-1074) := by
  simp [JSNumber.round, roundHalfEven, JSNumber.pack]

theorem toRat_eq_some_iff (x : JSNumber) (q : ℚ) :
    x.toRat = some q
      ↔ ∃ negative m e, x = .finite negative m e
          ∧ q = (if negative then -1 else 1) * (m : ℚ) * 2 ^ e := by
  cases x with
  | nan => simp [JSNumber.toRat]
  | inf a => simp [JSNumber.toRat]
  | finite a m e =>
    simp only [JSNumber.toRat, Option.some.injEq, JSNumber.finite.injEq]
    constructor
    · intro h
      exact ⟨a, m, e, ⟨rfl, rfl, rfl⟩, h.symm⟩
    · rintro ⟨a1, m1, e1, ⟨rfl, rfl, rfl⟩, h⟩
      exact h.symm

theorem dyadic_mantissa_eq (a b : Bool) (m M : Nat) (e E : Int)
    (h : (if a then -1 else 1) * (m : ℚ) * 2 ^ e = (if b then -1 else 1) * (M : ℚ) * 2 ^ E) :
    (m : ℚ) * 2 ^ e = (M : ℚ) * 2 ^ E := by
  have h2 : (0 : ℚ) < 2 := by norm_num
  have he : (0 : ℚ) < 2 ^ e := zpow_pos h2 e
  have hE : (0 : ℚ) < 2 ^ E := zpow_pos h2 E
  have hm : (0 : ℚ) ≤ (m : ℚ) * 2 ^ e := mul_nonneg (Nat.cast_nonneg m) he.le
  have hM : (0 : ℚ) ≤ (M : ℚ) * 2 ^ E := mul_nonneg (Nat.cast_nonneg M) hE.le
  cases a <;> cases b <;> simp only [Bool.false_eq_true, if_false, if_true, one_mul,
    neg_mul] at h <;> linarith

theorem round_represents (negative : Bool) (m : Nat) (e : Int)
    (h : Representable ((if negative then -1 else 1) * (m : ℚ) * 2 ^ e)) :
    Represents (JSNumber.round negative m e) ((if negative then -1 else 1) * (m : ℚ) * 2 ^ e) := by
  by_cases hm : m = 0
  · subst hm
    rw [round_zero]
    refine ⟨(isDouble_finite_iff negative 0 (-1074)).mpr (by norm_num), ?_⟩
    simp [JSNumber.toRat]
  · obtain ⟨c, hc, hv⟩ := h
    obtain ⟨b, M, E, rfl, hq⟩ := (toRat_eq_some_iff c _).mp hv
    have hval := dyadic_mantissa_eq negative b m M e E hq
    have hM : M ≠ 0 := by
      rintro rfl
      have h2 : (2 : ℚ) ^ e ≠ 0 := zpow_ne_zero e (by norm_num)
      simp only [Nat.cast_zero, zero_mul, mul_eq_zero, Nat.cast_eq_zero] at hval
      rcases hval with h0 | h0
      · exact hm h0
      · exact h2 h0
    have hd : (JSNumber.finite negative M E).isDouble = true :=
      (isDouble_finite_iff negative M E).mpr ((isDouble_finite_iff b M E).mp hc)
    rw [round_exact negative m M e E hM hd hval]
    refine ⟨hd, ?_⟩
    simp only [JSNumber.toRat, Option.some.injEq]
    rw [mul_assoc, mul_assoc, hval]

theorem mul_exact (a b : JSNumber) (qa qb : ℚ) (ha : Represents a qa) (hb : Represents b qb)
    (h : Representable (qa * qb)) : Represents (a * b) (qa * qb) := by
  obtain ⟨na, ma, ea, rfl, hqa⟩ := (toRat_eq_some_iff a qa).mp ha.2
  obtain ⟨nb, mb, eb, rfl, hqb⟩ := (toRat_eq_some_iff b qb).mp hb.2
  have hv : qa * qb
      = (if xor na nb then -1 else 1) * ((ma * mb : Nat) : ℚ) * 2 ^ (ea + eb) := by
    rw [hqa, hqb, zpow_add₀ (by norm_num : (2 : ℚ) ≠ 0)]
    push_cast
    cases na <;> cases nb <;> simp <;> ring
  rw [hv] at h ⊢
  exact round_represents (xor na nb) (ma * mb) (ea + eb) h



theorem signed_scaled (a : Bool) (m : Nat) (e g : Int) (hg : g ≤ e) :
    ((JSNumber.signed a (m * 2 ^ (e - g).toNat) : Int) : ℚ) * 2 ^ g
      = (if a then -1 else 1) * (m : ℚ) * 2 ^ e := by
  obtain ⟨k, hk⟩ := Int.eq_ofNat_of_zero_le (sub_nonneg.mpr hg)
  have he : e = g + k := by omega
  subst he
  have h1 : (g + (k : Int) - g).toNat = k := by simp
  rw [h1, zpow_add₀ (by norm_num : (2 : ℚ) ≠ 0), zpow_natCast]
  cases a <;> simp [JSNumber.signed] <;> ring

theorem natAbs_signed (t : Int) :
    (if decide (t < 0) = true then -1 else 1) * ((t.natAbs : Nat) : ℚ) = (t : ℚ) := by
  rcases lt_or_le t 0 with h | h
  · have h1 : (t.natAbs : Int) = -t := by omega
    have h2 : ((t.natAbs : Nat) : ℚ) = -(t : ℚ) := by
      rw [← Int.cast_natCast, h1, Int.cast_neg]
    simp only [h, decide_True, if_true]
    rw [h2]
    ring
  · have hn : ¬ t < 0 := not_lt.mpr h
    have h1 : (t.natAbs : Int) = t := by omega
    have h2 : ((t.natAbs : Nat) : ℚ) = (t : ℚ) := by
      rw [← Int.cast_natCast, h1]
    simp only [hn, decide_False, Bool.false_eq_true, if_false, one_mul]
    rw [h2]

theorem add_exact (a b : JSNumber) (qa qb : ℚ) (ha : Represents a qa) (hb : Represents b qb)
    (h : Representable (qa + qb)) : Represents (a + b) (qa + qb) := by
  obtain ⟨na, ma, ea, rfl, hqa⟩ := (toRat_eq_some_iff a qa).mp ha.2
  obtain ⟨nb, mb, eb, rfl, hqb⟩ := (toRat_eq_some_iff b qb).mp hb.2
  have hsum : qa + qb
      = ((JSNumber.signed na (ma * 2 ^ (ea - min ea eb).toNat)
          + JSNumber.signed nb (mb * 2 ^ (eb - min ea eb).toNat) : Int) : ℚ)
        * 2 ^ (min ea eb) := by
    rw [hqa, hqb, Int.cast_add, add_mul,
      signed_scaled na ma ea (min ea eb) (min_le_left ea eb),
      signed_scaled nb mb eb (min ea eb) (min_le_right ea eb)]
  show Represents (JSNumber.add (.finite na ma ea) (.finite nb mb eb)) (qa + qb)
  simp only [JSNumber.add]
  split_ifs with h0
  · rw [hsum, h0]
    refine ⟨(isDouble_finite_iff (na && nb) 0 (-1074)).mpr (by norm_num), ?_⟩
    simp [JSNumber.toRat]
  · have hv : qa + qb
        = (if decide (JSNumber.signed na (ma * 2 ^ (ea - min ea eb).toNat)
              + JSNumber.signed nb (mb * 2 ^ (eb - min ea eb).toNat) < 0) = true then -1 else 1)
            * (((JSNumber.signed na (ma * 2 ^ (ea - min ea eb).toNat)
              + JSNumber.signed nb (mb * 2 ^ (eb - min ea eb).toNat)).natAbs : Nat) : ℚ)
            * 2 ^ (min ea eb) := by
      rw [natAbs_signed, hsum]
    rw [hv] at h ⊢
    exact round_represents _ _ _ h



theorem two_eq : (2 : JSNumber) = .finite false (2 ^ 52) (-51) := by decide

theorem two_represents : Represents (2 : JSNumber) 2 := by
  rw [two_eq]
  refine ⟨by decide, ?_⟩
  norm_num [JSNumber.toRat]

theorem zero_eq : (0 : JSNumber) = .finite false 0 (-1074) := by decide

theorem zero_represents : Represents (0 : JSNumber) 0 := by
  rw [zero_eq]
  refine ⟨by decide, ?_⟩
  norm_num [JSNumber.toRat]

theorem abs_value (negative : Bool) (M : Nat) (E : Int) :
    |(if negative then -1 else 1) * (M : ℚ) * 2 ^ E| = (M : ℚ) * 2 ^ E := by
  have hE : (0 : ℚ) < 2 ^ E := zpow_pos (by norm_num) E
  have hM : (0 : ℚ) ≤ (M : ℚ) * 2 ^ E := mul_nonneg (Nat.cast_nonneg M) hE.le
  cases negative
  · simp only [Bool.false_eq_true, if_false, one_mul]
    exact abs_of_nonneg hM
  · simp only [if_true, neg_mul, one_mul, abs_neg]
    exact abs_of_nonneg hM

theorem value_lt_of_exponent_le (M : Nat) (E : Int) (h53 : M < 2 ^ 53) (hE : E ≤ 970) :
    (M : ℚ) * 2 ^ E < 2 ^ 1023 := by
  have h1 : (M : ℚ) < 2 ^ 53 := by exact_mod_cast h53
  have h2 : (2 : ℚ) ^ E ≤ 2 ^ (970 : Int) := zpow_le_zpow_right₀ (by norm_num) hE
  have h3 : (0 : ℚ) < 2 ^ E := zpow_pos (by norm_num) E
  have h4 : (2 : ℚ) ^ (970 : Int) = 2 ^ 970 := zpow_ofNat 2 970
  calc (M : ℚ) * 2 ^ E < 2 ^ 53 * 2 ^ E := mul_lt_mul_of_pos_right h1 h3
    _ ≤ 2 ^ 53 * 2 ^ (970 : Int) := mul_le_mul_of_nonneg_left h2 (by positivity)
    _ = 2 ^ 1023 := by rw [h4, ← pow_add]

theorem value_ge_of_exponent_eq (M : Nat) (h52 : 2 ^ 52 ≤ M) :
    (2 : ℚ) ^ 1023 ≤ (M : ℚ) * 2 ^ (971 : Int) := by
  have h1 : (2 : ℚ) ^ 52 ≤ (M : ℚ) := by exact_mod_cast h52
  have h4 : (2 : ℚ) ^ (971 : Int) = 2 ^ 971 := zpow_ofNat 2 971
  calc (2 : ℚ) ^ 1023 = 2 ^ 52 * 2 ^ 971 := by rw [← pow_add]
    _ ≤ (M : ℚ) * 2 ^ 971 := mul_le_mul_of_nonneg_right h1 (by positivity)
    _ = (M : ℚ) * 2 ^ (971 : Int) := by rw [h4]

theorem double_exact (x : JSNumber) (q : ℚ) (h : Represents x q) (hr : |q| < 2 ^ 1023) :
    Represents (x * 2) (2 * q) := by
  rw [mul_comm 2 q]
  apply mul_exact x 2 q 2 h two_represents
  obtain ⟨negative, M, E, rfl, hq⟩ := (toRat_eq_some_iff x q).mp h.2
  obtain ⟨h53, hE, hE2, hn⟩ := (isDouble_finite_iff negative M E).mp h.1
  rw [hq, abs_value] at hr
  have hE970 : E ≤ 970 := by
    by_contra hc
    have hE971 : E = 971 := by omega
    subst hE971
    have h52 : 2 ^ 52 ≤ M := by
      rcases hn with h52 | h0
      · exact h52
      · omega
    exact absurd hr (not_lt.mpr (value_ge_of_exponent_eq M h52))
  rcases Nat.lt_or_ge M (2 ^ 52) with hsub | hnorm
  · have hE0 : E = -1074 := by
      rcases hn with h52 | h0
      · omega
      · exact h0
    refine ⟨.finite negative (2 * M) E, ?_, ?_⟩
    · exact (isDouble_finite_iff negative (2 * M) E).mpr ⟨by omega, hE, hE2, Or.inr hE0⟩
    · simp only [JSNumber.toRat, Option.some.injEq, hq]
      push_cast
      ring
  · refine ⟨.finite negative M (E + 1), ?_, ?_⟩
    · exact (isDouble_finite_iff negative M (E + 1)).mpr
        ⟨h53, by omega, by omega, Or.inl hnorm⟩
    · simp only [JSNumber.toRat, Option.some.injEq, hq]
      rw [zpow_add_one₀ (by norm_num : (2 : ℚ) ≠ 0)]
      ring

theorem double_overflow (x : JSNumber) (q : ℚ) (h : Represents x q)
    (hr : 2 ^ 1023 ≤ |q|) : x * 2 = .inf (decide (q < 0)) := by
  obtain ⟨negative, M, E, rfl, hq⟩ := (toRat_eq_some_iff x q).mp h.2
  obtain ⟨h53, hE, hE2, hn⟩ := (isDouble_finite_iff negative M E).mp h.1
  have hr2 := hr
  rw [hq, abs_value] at hr2
  have hE971 : E = 971 := by
    by_contra hc
    have hE970 : E ≤ 970 := by omega
    exact absurd (value_lt_of_exponent_le M E h53 hE970) (not_lt.mpr hr2)
  subst hE971
  have h52 : 2 ^ 52 ≤ M := by
    rcases hn with h52 | h0
    · exact h52
    · omega
  have hM : M ≠ 0 := by
    have := Nat.two_pow_pos 52
    omega
  have hsign : decide (q < 0) = negative := by
    have hpos : (0 : ℚ) < (M : ℚ) * 2 ^ (971 : Int) :=
      mul_pos (by exact_mod_cast Nat.pos_of_ne_zero hM) (zpow_pos (by norm_num) _)
    cases negative
    · simp only [Bool.false_eq_true, if_false, one_mul] at hq
      rw [hq]
      simpa using hpos.le
    · simp only [if_true, neg_mul, one_mul] at hq
      rw [hq]
      simpa using hpos
  rw [hsign, two_eq]
  show JSNumber.round (xor negative false) (M * 2 ^ 52) (971 + -51) = .inf negative
  have hb : bitLength (M * 2 ^ 52) = 105 := by
    rw [bitLength_mul_pow M 52 hM, bitLength_eq_53 M h53 h52]
  unfold JSNumber.round
  rw [hb]
  have hq1 : max ((971 : Int) + -51 + ((105 : Nat) : Int) - 53) (-1074) = 972 := by decide
  rw [hq1]
  have h1 : ((971 : Int) + -51 - 972).toNat = 0 := by decide
  have h2 : ((972 : Int) - (971 + -51)).toNat = 52 := by decide
  rw [h1, h2, pow_zero, mul_one, roundHalfEven_exact]
  have h3 : M ≠ 2 ^ 53 := by omega
  unfold JSNumber.pack
  rw [if_neg h3, if_neg hM, if_pos (by decide), Bool.xor_false]



theorem ofNat_represents (n : Nat) (h : n < 2 ^ 53) : Represents (JSNumber.ofNat n) (n : ℚ) := by
  have hv : (n : ℚ) = (if false = true then -1 else 1) * (n : ℚ) * 2 ^ (0 : Int) := by simp
  rw [hv]
  apply round_represents false n 0
  rw [← hv]
  by_cases hn : n = 0
  · subst hn
    exact ⟨0, by simpa using zero_represents⟩
  · have hb := bitLength_le_53 n h
    have h1 := bitLength_lt n
    have h2 := bitLength_le n hn
    obtain ⟨k, hk⟩ : ∃ k, bitLength n + k = 53 := ⟨53 - bitLength n, by omega⟩
    have hpow : 2 ^ bitLength n * 2 ^ k = 2 ^ 53 := by rw [← pow_add, hk]
    have hkpos : 0 < 2 ^ k := Nat.two_pow_pos k
    refine ⟨.finite false (n * 2 ^ k) (-(k : Int)), ?_, ?_⟩
    · refine (isDouble_finite_iff false (n * 2 ^ k) (-(k : Int))).mpr ⟨?_, by omega, by omega, ?_⟩
      · calc n * 2 ^ k < 2 ^ bitLength n * 2 ^ k := Nat.mul_lt_mul_of_pos_right h1 hkpos
          _ = 2 ^ 53 := hpow
      · left
        have h3 : 2 ^ bitLength n * 2 ^ k ≤ 2 * n * 2 ^ k := Nat.mul_le_mul_right _ h2
        have h4 : (2 : Nat) ^ 53 = 2 * 2 ^ 52 := by norm_num
        rw [hpow, h4, Nat.mul_assoc] at h3
        omega
    · simp only [JSNumber.toRat, Option.some.injEq, Bool.false_eq_true, if_false, one_mul]
      push_cast
      rw [zpow_neg, zpow_natCast, mul_assoc, mul_inv_cancel₀ (by positivity), mul_one]

theorem literal_represents (n : Nat) (h : n < 2 ^ 53) : Represents (OfNat.ofNat n : JSNumber) (n : ℚ) :=
  ofNat_represents n h

theorem JSNumber.mul_comm_double (a b : JSNumber) : a * b = b * a := by
  show JSNumber.mul a b = JSNumber.mul b a
  cases a <;> cases b <;> simp only [JSNumber.mul, Bool.xor_comm, Nat.mul_comm, Int.add_comm]

theorem foldl_add_exact (xs : List JSNumber) (qs : List ℚ) (h : List.Forall₂ Represents xs qs)
    (acc : JSNumber) (a : ℚ) (hacc : Represents acc a)
    (hpart : ∀ k : Nat, Representable (a + (qs.take k).sum)) :
    Represents (xs.foldl (fun s n => s + n) acc) (a + qs.sum) := by
  induction h generalizing acc a with
  | nil => simpa using hacc
  | @cons x q xs qs hx _ ih =>
    have h1 : Representable (a + q) := by simpa using hpart 1
    have hstep := add_exact acc x a q hacc hx h1
    have := ih (acc + x) (a + q) hstep (fun k => by
      have := hpart (k + 1)
      simpa [List.take_succ_cons, add_assoc] using this)
    simpa [List.foldl_cons, add_assoc] using this



/-! ## Claims on `processData` and `createMultiplier` -/

theorem hugeNumber_represents : Represents hugeNumber (2 ^ 1023) := by
  refine ⟨by decide, ?_⟩
  simp only [hugeNumber, JSNumber.toRat, Bool.false_eq_true, if_false, one_mul,
    Option.some.injEq]
  rw [zpow_ofNat]
  push_cast
  rw [show (4503599627370496 : ℚ) = 2 ^ 52 by norm_num, ← pow_add]

/-- C3, as stated, fails: the double `2 ^ 1023` is a number, and its entry in the doubled
output is `Infinity`, which is not 2 times `2 ^ 1023`. -/
theorem processData_doubled_overflows :
    hugeNumber.isDouble = true
    ∧ hugeNumber.toRat = some (2 ^ 1023)
    ∧ (processData [hugeNumber]).doubled = [.inf false]
    ∧ (JSNumber.inf false).toRat = none :=
  ⟨hugeNumber_represents.1, hugeNumber_represents.2, by decide, rfl⟩

/-- C3, amended: the doubled output has the length of the input and its i-th element is
the double product of the i-th input and 2, in the same order; that product is exactly
2 times the input when the input is finite and below `2 ^ 1023` in magnitude, and is the
infinity of the same sign when the input is finite and at least `2 ^ 1023` in magnitude. -/
theorem processData_doubled_spec (ns : List JSNumber) :
    (processData ns).doubled.length = ns.length
    ∧ (∀ i : Nat, (processData ns).doubled[i]? = (ns[i]?).map fun x => x * 2)
    ∧ (∀ (i : Nat) (x : JSNumber) (q : ℚ), ns[i]? = some x → Represents x q →
        |q| < 2 ^ 1023 →
        ∃ d, (processData ns).doubled[i]? = some d ∧ Represents d (2 * q))
    ∧ (∀ (i : Nat) (x : JSNumber) (q : ℚ), ns[i]? = some x → Represents x q →
        2 ^ 1023 ≤ |q| →
        (processData ns).doubled[i]? = some (.inf (decide (q < 0)))) := by
  have hmap : (processData ns).doubled = ns.map fun x => x * 2 := rfl
  have hget : ∀ i : Nat, (processData ns).doubled[i]? = (ns[i]?).map fun x => x * 2 := by
    intro i
    rw [hmap, List.getElem?_map]
  refine ⟨by rw [hmap, List.length_map], hget, ?_, ?_⟩
  · intro i x q hx hrep hr
    exact ⟨x * 2, by rw [hget, hx, Option.map_some'], double_exact x q hrep hr⟩
  · intro i x q hx hrep hr
    rw [hget, hx, Option.map_some', double_overflow x q hrep hr]

/-- Instances of C3 amended: `3` doubles exactly to a double of value `6`, and
`2 ^ 1023` doubles to `Infinity`. -/
theorem processData_doubled_spec_witness :
    (∃ d, (processData [3, hugeNumber]).doubled[0]? = some d ∧ Represents d (2 * 3))
    ∧ (processData [3, hugeNumber]).doubled[1]?
        = some (.inf (decide ((2 : ℚ) ^ 1023 < 0))) :=
  ⟨(processData_doubled_spec [3, hugeNumber]).2.2.1 0 3 3 rfl
      (literal_represents 3 (by norm_num)) (by norm_num),
   (processData_doubled_spec [3, hugeNumber]).2.2.2 1 hugeNumber (2 ^ 1023) rfl
      hugeNumber_represents (by rw [abs_of_nonneg (by positivity)])⟩

/-- C4: the filtered output is exactly the subsequence of the doubled output made of the
elements strictly greater than 10, in their original order and with their multiplicity;
an element equal to 10 is excluded. -/
theorem processData_filtered_spec (ns : List JSNumber) :
    (processData ns).filtered = (processData ns).doubled.filter (fun n => n.gt 10)
    ∧ (processData ns).filtered.Sublist (processData ns).doubled
    ∧ (∀ x : JSNumber,
        x ∈ (processData ns).filtered ↔ x ∈ (processData ns).doubled ∧ x.gt 10 = true)
    ∧ (∀ x : JSNumber, (processData ns).filtered.count x
          = if x.gt 10 = true then (processData ns).doubled.count x else 0)
    ∧ (10 : JSNumber) ∉ (processData ns).filtered := by
  have hf : (processData ns).filtered
      = (processData ns).doubled.filter (fun n => n.gt 10) := rfl
  refine ⟨hf, ?_, ?_, ?_, ?_⟩
  · rw [hf]
    exact List.filter_sublist _
  · intro x
    rw [hf, List.mem_filter]
  · intro x
    rw [hf]
    by_cases hx : x.gt 10 = true
    · rw [if_pos hx]
      exact List.count_filter hx
    · rw [if_neg hx]
      apply List.count_eq_zero_of_not_mem
      rw [List.mem_filter]
      exact fun h => hx h.2
  · rw [hf, List.mem_filter]
    intro h
    exact absurd h.2 (by decide)

/-- C5, as stated, fails: on `[9007199254740991, 6]` the filtered output holds the values
`18014398509481982` and `12`, whose total is `18014398509481994`, and the sum output is
the double `18014398509481992`. -/
theorem processData_sum_rounds :
    (processData [maxSafeInteger, 6]).filtered.map JSNumber.toRat
      = [some 18014398509481982, some 12]
    ∧ (processData [maxSafeInteger, 6]).sum.toRat = some 18014398509481992
    ∧ (18014398509481982 + 12 : ℚ) ≠ 18014398509481992 := by
  have h : processData [maxSafeInteger, 6]
      = { doubled := [.finite false 9007199254740991 1, .finite false 6755399441055744 (-49)],
          filtered := [.finite false 9007199254740991 1, .finite false 6755399441055744 (-49)],
          sum := .finite false 4503599627370498 2 } := by decide
  rw [h]
  refine ⟨?_, ?_, by norm_num⟩
  · norm_num [JSNumber.toRat]
  · norm_num [JSNumber.toRat]

/-- C5, amended: the sum output is the left-to-right sum of the filtered output in double
arithmetic, starting from 0 (so 0 when filtered is empty); it equals the arithmetic total
of the filtered values whenever every partial total is exactly representable as a double;
on `[1,2,3,4,5]` the result is doubled `[2,4,6,8,10]`, filtered `[]`, sum `0`, and on
`[6,7,8]` it is doubled `[12,14,16]`, filtered `[12,14,16]`, sum `42`. -/
theorem processData_sum_spec (ns : List JSNumber) :
    (processData ns).sum = (processData ns).filtered.foldl (fun acc n => acc + n) 0
    ∧ (∀ qs : List ℚ, List.Forall₂ Represents (processData ns).filtered qs →
        (∀ k : Nat, Representable ((qs.take k).sum)) →
        Represents (processData ns).sum qs.sum)
    ∧ processData [1, 2, 3, 4, 5]
        = { doubled := [2, 4, 6, 8, 10], filtered := [], sum := 0 }
    ∧ processData [6, 7, 8]
        = { doubled := [12, 14, 16], filtered := [12, 14, 16], sum := 42 } := by
  refine ⟨rfl, ?_, by decide, by decide⟩
  intro qs hqs hpart
  have := foldl_add_exact (processData ns).filtered qs hqs 0 0 zero_represents
    (fun k => by simpa using hpart k)
  simpa using this

/-- Instance of C5 amended: on `[6,7,8]` every partial total of `12, 14, 16` is a double,
so the sum output has the value 42. -/
theorem processData_sum_spec_witness :
    Represents (processData [6, 7, 8]).sum ([12, 14, 16] : List ℚ).sum :=
  (processData_sum_spec [6, 7, 8]).2.1 [12, 14, 16]
    (by
      have h : (processData [6, 7, 8]).filtered = [12, 14, 16] := by decide
      rw [h]
      exact List.Forall₂.cons (literal_represents 12 (by norm_num))
        (List.Forall₂.cons (literal_represents 14 (by norm_num))
          (List.Forall₂.cons (literal_represents 16 (by norm_num)) List.Forall₂.nil)))
    (by
      intro k
      match k with
      | 0 => exact ⟨0, by simpa using literal_represents 0 (by norm_num)⟩
      | 1 => exact ⟨12, by simpa using literal_represents 12 (by norm_num)⟩
      | 2 => exact ⟨26, by
          have := literal_represents 26 (by norm_num)
          norm_num at this ⊢
          exact this⟩
      | k + 3 => exact ⟨42, by
          have := literal_represents 42 (by norm_num)
          norm_num at this ⊢
          exact this⟩)

/-- C7, as stated, fails: `createMultiplier(3)(9007199254740991)` is the double
`27021597764222972`, while 3 times `9007199254740991` is `27021597764222973`. -/
theorem createMultiplier_rounds :
    (3 : JSNumber).toRat = some 3
    ∧ maxSafeInteger.toRat = some 9007199254740991
    ∧ (createMultiplier 3 maxSafeInteger).toRat = some 27021597764222972
    ∧ (3 * 9007199254740991 : ℚ) ≠ 27021597764222972 := by
  have h3 : (3 : JSNumber) = .finite false 6755399441055744 (-51) := by decide
  have hm : maxSafeInteger = .finite false 9007199254740991 0 := by decide
  have hp : createMultiplier 3 maxSafeInteger = .finite false 6755399441055743 2 := by decide
  rw [h3, hm] at *
  rw [hp]
  refine ⟨?_, ?_, ?_, by norm_num⟩ <;> norm_num [JSNumber.toRat]

/-- C7, amended: for every factor `f` and input `x`, `createMultiplier(f)(x)` is the
double product of `x` and `f`, which is also the double product of `f` and `x`; it
equals the exact product of the two values whenever that product is exactly representable
as a double, as for non-negative integers whose product is below `2 ^ 53`; in particular
`createMultiplier(3)(5)` is 15. -/
theorem createMultiplier_spec (f x : JSNumber) :
    createMultiplier f x = x * f
    ∧ createMultiplier f x = f * x
    ∧ (∀ qf qx : ℚ, Represents f qf → Represents x qx → Representable (qf * qx) →
        Represents (createMultiplier f x) (qf * qx))
    ∧ (∀ a b : Nat, a < 2 ^ 53 → b < 2 ^ 53 → a * b < 2 ^ 53 →
        Represents (createMultiplier (JSNumber.ofNat a) (JSNumber.ofNat b)) ((a : ℚ) * (b : ℚ)))
    ∧ createMultiplier 3 5 = 15 := by
  refine ⟨rfl, JSNumber.mul_comm_double x f, ?_, ?_, by decide⟩
  · intro qf qx hf hx hrep
    rw [mul_comm qf qx] at hrep ⊢
    exact mul_exact x f qx qf hx hf hrep
  · intro a b ha hb hab
    rw [mul_comm (a : ℚ) (b : ℚ)]
    apply mul_exact _ _ _ _ (ofNat_represents b hb) (ofNat_represents a ha)
    refine ⟨JSNumber.ofNat (a * b), ?_⟩
    have := ofNat_represents (a * b) hab
    rw [mul_comm (b : ℚ) (a : ℚ)]
    exact_mod_cast this

/-- Instance of C7 amended: the doubles 3 and 5 have the exactly representable product
15. -/
theorem createMultiplier_spec_witness :
    Represents (createMultiplier 3 5) (3 * 5) :=
  (createMultiplier_spec 3 5).2.2.1 3 5 (literal_represents 3 (by norm_num))
    (literal_represents 5 (by norm_num))
    ⟨15, by
      have := literal_represents 15 (by norm_num)
      norm_num at this ⊢
      exact this⟩



/-! ## Claim on `getUserById` -/

theorem arrayFind_eq_find (callback : JSValue → JS Bool) (p : JSValue → Bool)
    (items : List JSValue) (s : Runtime)
    (h : ∀ u ∈ items, callback u s = (.ok (p u), s)) :
    arrayFind callback items s = (.ok ((items.find? p).getD .undefined), s) := by
  induction items with
  | nil => rfl
  | cons item rest ih =>
    have hitem := h item (List.mem_cons_self item rest)
    have hrest := ih fun u hu => h u (List.mem_cons_of_mem item hu)
    simp only [arrayFind, JS.bind, hitem, List.find?_cons]
    cases hp : p item with
    | true => rfl
    | false => simpa using hrest

theorem getUserById_callback (id : JSPrimitive) (user : JSValue) (s : Runtime) (h : user.isObject = true) :
    (do
      let userId ← JS.eval (user.getProp "id")
      pure (strictEquals userId id) : JS Bool) s = (.ok (hasId id user), s) := by
  cases user <;> simp [JSValue.isObject] at h
  rfl

theorem getUserById_eq_find (s : Runtime) (items : List JSValue) (id : JSPrimitive)
    (hstore : s.manager.users = .array items)
    (hrecords : ∀ u ∈ items, u.isObject = true) :
    UserManager.getUserById id s = (.ok ((items.find? (hasId id)).getD .undefined), s) := by
  have hfind := arrayFind_eq_find
    (fun user => do
      let userId ← JS.eval (user.getProp "id")
      pure (strictEquals userId id))
    (hasId id) items s
    (fun u hu => getUserById_callback id u s (hrecords u hu))
  simp only [UserManager.getUserById, bind, JS.bind, JS.getUsers, hstore]
  exact hfind

/-- C6: on a stored sequence of user records and for every identifier `id` (a primitive
value), `getUserById(id)` returns the first record
in stored order whose `id` equals the query (everything stored before it has another
identifier), returns `undefined` exactly when no stored record has that identifier (so in
particular on the empty sequence), and leaves the state unchanged. -/
theorem getUserById_spec (s : Runtime) (items : List JSValue) (id : JSPrimitive)
    (hstore : s.manager.users = .array items)
    (hrecords : ∀ u ∈ items, u.isObject = true) :
    ∃ v, UserManager.getUserById id s = (.ok v, s)
      ∧ (v = .undefined ↔ ∀ u ∈ items, hasId id u = false)
      ∧ ((v = .undefined ∧ ∀ u ∈ items, hasId id u = false)
          ∨ ∃ before after, items = before ++ v :: after ∧ hasId id v = true
              ∧ ∀ u ∈ before, hasId id u = false) := by
  refine ⟨(items.find? (hasId id)).getD .undefined,
    getUserById_eq_find s items id hstore hrecords, ?_⟩
  cases hf : items.find? (hasId id) with
  | none =>
    have hnone : ∀ u ∈ items, hasId id u = false := by
      intro u hu
      have := List.find?_eq_none.mp hf u hu
      simpa using this
    exact ⟨⟨fun _ => hnone, fun _ => rfl⟩, Or.inl ⟨rfl, hnone⟩⟩
  | some v =>
    obtain ⟨hv, before, after, hsplit, hbefore⟩ := List.find?_eq_some.mp hf
    have hmem : v ∈ items := by
      rw [hsplit]
      exact List.mem_append_right before (List.mem_cons_self v after)
    have hne : v ≠ .undefined := by
      intro hu
      have hobj := hrecords v hmem
      rw [hu] at hobj
      cases hobj
    have hb : ∀ u ∈ before, hasId id u = false := by
      intro u hu
      simpa using hbefore u hu
    refine ⟨⟨fun hu => absurd hu hne, fun hall => ?_⟩, Or.inr ⟨before, after, hsplit, hv, hb⟩⟩
    have := hall v hmem
    rw [hv] at this
    cases this

/-- Witness for C6: three stored records, two of which carry the queried identifier. -/
theorem getUserById_spec_witness :
    crowdedRuntime.manager.users = .array [alice, bob, bobTwin]
    ∧ ∃ v, UserManager.getUserById (.number 2) crowdedRuntime = (.ok v, crowdedRuntime)
      ∧ (v = .undefined ↔ ∀ u ∈ [alice, bob, bobTwin], hasId (.number 2) u = false)
      ∧ ((v = .undefined ∧ ∀ u ∈ [alice, bob, bobTwin], hasId (.number 2) u = false)
          ∨ ∃ before after, [alice, bob, bobTwin] = before ++ v :: after
              ∧ hasId (.number 2) v = true
              ∧ ∀ u ∈ before, hasId (.number 2) u = false) :=
  ⟨rfl, getUserById_spec crowdedRuntime [alice, bob, bobTwin] (.number 2) rfl (by
    intro u hu
    simp only [List.mem_cons, List.mem_singleton, List.not_mem_nil, or_false] at hu
    rcases hu with rfl | rfl | rfl <;> rfl)⟩

/-! ## Claim on `loadUserData` -/

theorem loadUserData_result (fetch : Fetch) (s : Runtime) :
    (loadUserData fetch s).1 = decodedBody fetch exampleUrl := by
  simp only [loadUserData, JS.catchDo, JS.thenDo, JS.tryCatch, JS.bind, JS.await, bind, pure,
    JS.pure, JS.consoleLog, JS.consoleError, JS.throw, decodedBody, exampleUrl]
  cases h1 : fetch "https://api.example.com/users" with
  | error e => rfl
  | ok response =>
    cases h2 : response.json with
    | error e => simp [h2]
    | ok data => simp [h2]

/-- C9: when the request and the JSON parse succeed with payload `d`, `loadUserData`
resolves with exactly `d`; when the request or the parse fails with error `e`, it rejects
with that same `e`; `fetchUsers`, on such a failure of its own request, resolves normally
with the empty sequence. -/
theorem loadUserData_resignals (fetch : Fetch) (s : Runtime) :
    (∀ d, decodedBody fetch exampleUrl = .ok d → (loadUserData fetch s).1 = .ok d)
    ∧ (∀ e, decodedBody fetch exampleUrl = .error e → (loadUserData fetch s).1 = .error e)
    ∧ (∀ e, decodedBody fetch s.manager.apiUrl = .error e →
        (UserManager.fetchUsers fetch s).1 = .ok (.array [])) := by
  refine ⟨fun d h => ?_, fun e h => ?_, fun e h => ?_⟩
  · rw [loadUserData_result, h]
  · rw [loadUserData_result, h]
  · rw [fetchUsers_result]
    simp only [delivered, h, Option.getD_none]

/-- Witness for C9: a decoded payload is passed through, a rejected request and a
rejected parse are re-signalled, and `fetchUsers` swallows both. -/
theorem loadUserData_resignals_witness :
    (loadUserData (respondingWith alice) freshRuntime).1 = .ok alice
    ∧ (loadUserData offline freshRuntime).1 = .error (.string "offline")
    ∧ (loadUserData garbled freshRuntime).1 = .error (.string "Unexpected token")
    ∧ (UserManager.fetchUsers offline freshRuntime).1 = .ok (.array [])
    ∧ (UserManager.fetchUsers garbled freshRuntime).1 = .ok (.array []) :=
  ⟨(loadUserData_resignals (respondingWith alice) freshRuntime).1 alice rfl,
   (loadUserData_resignals offline freshRuntime).2.1 (.string "offline") rfl,
   (loadUserData_resignals garbled freshRuntime).2.1 (.string "Unexpected token") rfl,
   (loadUserData_resignals offline freshRuntime).2.2 (.string "offline") rfl,
   (loadUserData_resignals garbled freshRuntime).2.2 (.string "Unexpected token") rfl⟩

/-! ## Claim on `main` -/

theorem fetchUsers_completes (fetch : Fetch) (s : Runtime) :
    ∃ s1, UserManager.fetchUsers fetch s
      = (.ok ((delivered fetch s.manager.apiUrl).getD (.array [])), s1) := by
  have hr := fetchUsers_result fetch s
  cases h : UserManager.fetchUsers fetch s with
  | mk r s1 =>
    rw [h] at hr
    exact ⟨s1, by rw [show r = _ from hr]⟩

theorem getD_isNullish (fetch : Fetch) (url : String) :
    ((delivered fetch url).getD (.array [])).isNullish = deliversNullish fetch url := by
  unfold deliversNullish
  cases delivered fetch url <;> rfl

theorem mainTry_outcome (fetch : Fetch) (s : Runtime) :
    (deliversNullish fetch s.manager.apiUrl = true
      ∧ ∃ (e : JSValue) (s1 : Runtime), mainTry fetch s = (.error e, s1))
    ∨ (deliversNullish fetch s.manager.apiUrl = false
      ∧ ∃ (s1 : Runtime) (count : JSValue), mainTry fetch s
          = (.ok (), { manager := s1.manager, console := s1.console ++
              [{ level := .log, label := "Total users:", payload := count },
               { level := .log, label := "Processed data:",
                 payload := (processData [1, 2, 3, 4, 5]).toJS },
               { level := .log, label := "Triple of 5:", payload := .number 15 }] })) := by
  obtain ⟨s1, h⟩ := fetchUsers_completes fetch s
  rw [← getD_isNullish]
  generalize (delivered fetch s.manager.apiUrl).getD (.array []) = v at h
  simp only [mainTry, bind, JS.bind, h]
  cases v with
  | undefined => exact Or.inl ⟨rfl, _, _, rfl⟩
  | null => exact Or.inl ⟨rfl, _, _, rfl⟩
  | bool b =>
    exact Or.inr ⟨rfl, s1, _, by
      simp [JSValue.getProp, JS.eval, JS.consoleLog, createMultiplier]
      exact ⟨rfl, by decide⟩⟩
  | number n =>
    exact Or.inr ⟨rfl, s1, _, by
      simp [JSValue.getProp, JS.eval, JS.consoleLog, createMultiplier]
      exact ⟨rfl, by decide⟩⟩
  | string str =>
    exact Or.inr ⟨rfl, s1, _, by
      simp [JSValue.getProp, JS.eval, JS.consoleLog, createMultiplier]
      exact ⟨rfl, by decide⟩⟩
  | array items =>
    exact Or.inr ⟨rfl, s1, _, by
      simp [JSValue.getProp, JS.eval, JS.consoleLog, createMultiplier]
      exact ⟨rfl, by decide⟩⟩
  | object fields =>
    exact Or.inr ⟨rfl, s1, _, by
      simp [JSValue.getProp, JS.eval, JS.consoleLog, createMultiplier]
      exact ⟨rfl, by decide⟩⟩

theorem main_outcome (fetch : Fetch) (s : Runtime) :
    (main fetch s).1 = .ok ()
    ∧ ((main fetch s).2.console.getLast?).map (fun entry => (entry.level, entry.label))
        = some (if deliversNullish fetch exampleUrl = true then (.error, "Error in main:")
                else (.log, "Triple of 5:")) := by
  have h := mainTry_outcome fetch { s with manager := UserManager.new exampleUrl }
  have hurl : ({ s with manager := UserManager.new exampleUrl } : Runtime).manager.apiUrl
      = exampleUrl := rfl
  rw [hurl] at h
  have hmain : main fetch s
      = JS.tryCatch (mainTry fetch) (fun error => JS.consoleError "Error in main:" error)
          { s with manager := UserManager.new exampleUrl } := rfl
  rw [hmain]
  rcases h with ⟨hn, e, s1, h⟩ | ⟨hn, s1, count, h⟩
  · simp [JS.tryCatch, h, JS.consoleError, hn]
  · simp [JS.tryCatch, h, hn]

/-- C10, as stated, fails: when the response decodes to an object without a `users`
field, `fetchUsers` resolves with `undefined`, reading `users.length` throws inside the
`try` block of `main`, and the catch handler of `main` runs and writes its line. -/
theorem main_catch_handler_reachable :
    (UserManager.fetchUsers (respondingWith (.object [])) freshRuntime).1 = .ok .undefined
    ∧ (mainTry (respondingWith (.object [])) freshRuntime).1
        = .error (typeError "Cannot read properties of undefined (reading length)")
    ∧ (main (respondingWith (.object [])) freshRuntime).1 = .ok ()
    ∧ (main (respondingWith (.object [])) freshRuntime).2.console.map
          (fun entry => (entry.level, entry.label))
        = [(.error, "Error in main:")] :=
  ⟨rfl, rfl, rfl, rfl⟩

/-- C10, amended: for every network outcome and every decoded body, `fetchUsers` never
surfaces an error and `main` never raises; the `try` block of `main` raises exactly when
the call succeeds with a body whose `users` field is `undefined` (absent) or `null`, and
then the catch handler of `main` runs (its line is the last one written); in every other
case `users.length`, `processData([1,2,3,4,5])` and `createMultiplier(3)(5)` are all
evaluated without error (the last line written is the `Triple of 5:` log). -/
theorem main_try_raises_iff_nullish (fetch : Fetch) (s : Runtime) :
    (∃ v, (UserManager.fetchUsers fetch s).1 = .ok v)
    ∧ ((∃ e, (mainTry fetch s).1 = .error e) ↔ deliversNullish fetch s.manager.apiUrl = true)
    ∧ ((mainTry fetch s).1 = .ok () ↔ deliversNullish fetch s.manager.apiUrl = false)
    ∧ (main fetch s).1 = .ok ()
    ∧ ((main fetch s).2.console.getLast?).map (fun entry => (entry.level, entry.label))
        = some (if deliversNullish fetch exampleUrl = true then (.error, "Error in main:")
                else (.log, "Triple of 5:")) := by
  refine ⟨⟨_, fetchUsers_result fetch s⟩, ?_, ?_, main_outcome fetch s⟩
  · rcases mainTry_outcome fetch s with ⟨hn, e, s1, h⟩ | ⟨hn, s1, count, h⟩
    · exact ⟨fun _ => hn, fun _ => ⟨e, by rw [h]⟩⟩
    · constructor
      · rintro ⟨e, he⟩
        rw [h] at he
        cases he
      · intro ht
        rw [hn] at ht
        cases ht
  · rcases mainTry_outcome fetch s with ⟨hn, e, s1, h⟩ | ⟨hn, s1, count, h⟩
    · constructor
      · intro hok
        rw [h] at hok
        cases hok
      · intro hf
        rw [hn] at hf
        cases hf
    · exact ⟨fun _ => hn, fun _ => by rw [h]⟩

/-- Instances of C10 amended: an offline network and a well-formed body leave the `try`
block of `main` without error, a body without a `users` field makes it raise. -/
theorem main_try_raises_iff_nullish_witness :
    (mainTry offline freshRuntime).1 = .ok ()
    ∧ (mainTry (respondingWith (.object [("users", .array [alice, bob])])) freshRuntime).1
        = .ok ()
    ∧ ∃ e, (mainTry (respondingWith (.object [("name", .string "x")])) freshRuntime).1
        = .error e :=
  ⟨(main_try_raises_iff_nullish offline freshRuntime).2.2.1.mpr rfl,
   (main_try_raises_iff_nullish
      (respondingWith (.object [("users", .array [alice, bob])])) freshRuntime).2.2.1.mpr rfl,
   (main_try_raises_iff_nullish
      (respondingWith (.object [("name", .string "x")])) freshRuntime).2.1.mpr rfl⟩

end DocConv
